import Mathlib

/-!
Verification of the filesystem-identity reconciliation subsystem of the sync
engine: the path classifier, the local node tree with its filesystem-id index,
and the invalidation / assignment passes, together with the invariants the
spec states for them.  The repository ships the unit tests of the subsystem
(tests/unit/Sync_test.cpp); the subsystem itself is modelled here from the
specification, faithful to its §3–§8 wording, and checked against the test
fixture trees.
-/

namespace mega

/-- Modelled from the spec: content-identity signature of a file
(size, modification time, check-value), §3 "fingerprint". -/
structure Fingerprint where
  size : Nat
  mtime : Nat
  crc : Nat
deriving DecidableEq, Repr

/-- Modelled from the spec: the two node kinds of §3 (FILE, FOLDER). -/
inductive NodeKind where
  | file
  | folder
deriving DecidableEq, Repr

/-- Modelled from the spec: a LocalNode of §3 — one tracked filesystem entry.
The `fsid` field is the platform id or the sentinel UNDEFINED (here `none`);
`indexed` models `fsid_slot` ("not indexed" = `false`); folders own their
children, files carry their stored fingerprint. -/
inductive LNode where
  | file (name : String) (fsid : Option Nat) (indexed : Bool) (fp : Fingerprint)
  | folder (name : String) (fsid : Option Nat) (indexed : Bool) (children : List LNode)

/-- Modelled from the spec: the Filesystem-Id Index of §3, a mapping
fsid → node; a node is identified by its full path, mirroring the pointer
identity of the C++ `handlelocalnode_map`. -/
abbrev Index := List (Nat × String)

/-- Modelled from the spec (§4.2 `remove`): erase the entry for an id if
present; idempotent. -/
def removeId (idx : Index) (k : Nat) : Index :=
  idx.filter (fun e => e.1 ≠ k)

def LNode.name : LNode → String
  | .file n _ _ _ => n
  | .folder n _ _ _ => n

def LNode.fsid : LNode → Option Nat
  | .file _ f _ _ => f
  | .folder _ f _ _ => f

def LNode.indexed : LNode → Bool
  | .file _ _ i _ => i
  | .folder _ _ i _ => i

def LNode.kind : LNode → NodeKind
  | .file _ _ _ _ => .file
  | .folder _ _ _ _ => .folder

/-- Modelled from the spec: what the scanning capability reports when opening
one on-disk entry (§6): its kind, platform fsid and the fingerprint computed
from size / mtime / content. -/
structure FileInfo where
  kind : NodeKind
  fsid : Nat
  fp : Fingerprint
deriving DecidableEq, Repr

/-- Modelled from the spec: the injected filesystem-scanning capability (§6):
open and enumerate a directory's immediate children by name, or open a file
and read its identity data; each operation reports per-call failure. -/
structure Scanner where
  dopen : String → Option (List String)
  fopen : String → Option FileInfo

/-- Modelled from the spec (§4.1 Path Classifier, function `isPathSyncable` of
the tests): false iff the path equals the debris path or starts with
debris path + separator; no normalization. -/
def isPathSyncable (path debrisPath separator : String) : Bool :=
  !(path == debrisPath || List.isPrefixOf (debrisPath ++ separator).data path.data)

mutual

/-- Modelled from the spec (§4.3 `invalidateFilesystemIds`): depth-first walk
of the subtree; every visited node with a valid fsid is removed from the index
and reset to fsid UNDEFINED, not indexed.  Pure in-memory reset. -/
def invalidateFilesystemIds (idx : Index) : LNode → Index × LNode
  | .file n f i fp =>
    match f with
    | some k => (removeId idx k, .file n none false fp)
    | none => (idx, .file n f i fp)
  | .folder n f i cs =>
    match f with
    | some k =>
      let (idx2, cs') := invalidateForest (removeId idx k) cs
      (idx2, .folder n none false cs')
    | none =>
      let (idx2, cs') := invalidateForest idx cs
      (idx2, .folder n f i cs')

/-- Depth-first invalidation of a list of sibling subtrees, threading the
index left to right. -/
def invalidateForest (idx : Index) : List LNode → Index × List LNode
  | [] => (idx, [])
  | c :: cs =>
    let (idx1, c') := invalidateFilesystemIds idx c
    let (idx2, cs') := invalidateForest idx1 cs
    (idx2, c' :: cs')

end

mutual

/-- Modelled from the spec (§4.3 `assignFilesystemIds`, steps 2–5): the
per-node worker of the pass.  A file node is matched against its on-disk
counterpart: on a scan failure or a kind / fingerprint mismatch it is left
untouched; on a match its stale index entry is removed, its fsid set to the
on-disk id and a fresh entry inserted.  A folder node is opened via the
scanner; failure to open skips the whole subtree, otherwise each child whose
name was enumerated and whose path is syncable is processed recursively
(children are visited in child order, equivalent to the spec's per-entry loop
because sibling names are unique and directory listings are duplicate-free). -/
def assignNode (sc : Scanner) (debris sep : String) (path : String) :
    LNode → Index → LNode × Index
  | .file n f i fp, idx =>
    match sc.fopen path with
    | none => (.file n f i fp, idx)
    | some info =>
      if info.kind = .file ∧ info.fp = fp then
        let idx1 := match f with
          | some k => removeId idx k
          | none => idx
        (.file n (some info.fsid) true fp, (info.fsid, path) :: idx1)
      else
        (.file n f i fp, idx)
  | .folder n f i cs, idx =>
    match sc.dopen path with
    | none => (.folder n f i cs, idx)
    | some entries =>
      let (cs', idx') := assignChildren sc debris sep path entries cs idx
      (.folder n f i cs', idx')

/-- Per-directory loop of the pass (§4.3 steps 3–4): a child is processed when
its name was enumerated and its path is syncable; otherwise it is skipped
untouched. -/
def assignChildren (sc : Scanner) (debris sep : String) (path : String)
    (entries : List String) : List LNode → Index → List LNode × Index
  | [], idx => ([], idx)
  | c :: rest, idx =>
    if entries.contains c.name ∧ isPathSyncable (path ++ sep ++ c.name) debris sep then
      let (c', idx1) := assignNode sc debris sep (path ++ sep ++ c.name) c idx
      let (rest', idx2) := assignChildren sc debris sep path entries rest idx1
      (c' :: rest', idx2)
    else
      let (rest', idx2) := assignChildren sc debris sep path entries rest idx
      (c :: rest', idx2)

end

/-- Modelled from the spec (§4.3 `assignFilesystemIds`, steps 1–2 and 6): ask
the policy hook about the root path; if vetoed return false with tree and
index untouched.  If the root's own scan fails, return false likewise.
Otherwise run the depth-first pass and return true — per-entry failures never
escalate (§4.3 step 6; the `strict` flag is carried but, per the normative
algorithm of §4.3, does not alter the result). -/
def assignFilesystemIds (policyHook : String → Bool) (sc : Scanner) (t : LNode)
    (rootPath : String) (idx : Index) (debris sep : String) (strict : Bool) :
    Bool × LNode × Index :=
  if policyHook rootPath = false then (false, t, idx)
  else if (sc.dopen rootPath).isNone then (false, t, idx)
  else
    let (t', idx') := assignNode sc debris sep rootPath t idx
    (true, t', idx')

/-! Spec-level observation functions used to state the claims. -/

mutual

/-- Collect the valid fsids held by the nodes of a subtree. -/
def validFsids : LNode → List Nat
  | .file _ f _ _ => f.toList
  | .folder _ f _ cs => f.toList ++ validFsidsForest cs

/-- Valid fsids of a list of sibling subtrees. -/
def validFsidsForest : List LNode → List Nat
  | [] => []
  | c :: cs => validFsids c ++ validFsidsForest cs

end

mutual

/-- Expected tree after an invalidation pass: every node holding a valid fsid
is reset, every other node is untouched. -/
def invTree : LNode → LNode
  | .file n f i fp =>
    match f with
    | some _ => .file n none false fp
    | none => .file n f i fp
  | .folder n f i cs =>
    match f with
    | some _ => .folder n none false (invForest cs)
    | none => .folder n f i (invForest cs)

/-- Expected sibling list after an invalidation pass. -/
def invForest : List LNode → List LNode
  | [] => []
  | c :: cs => invTree c :: invForest cs

end

mutual

/-- Index entries a subtree rooted at a given path should contribute: one
entry per node holding a valid fsid, keyed by that fsid, valued by the node's
path. -/
def entriesOf (sep : String) : String → LNode → Index
  | p, .file _ f _ _ =>
    match f with
    | some k => [(k, p)]
    | none => []
  | p, .folder _ f _ cs =>
    (match f with
     | some k => [(k, p)]
     | none => []) ++ entriesForest sep p cs

/-- Index entries contributed by a list of sibling subtrees below a path. -/
def entriesForest (sep : String) : String → List LNode → Index
  | _, [] => []
  | p, c :: cs => entriesOf sep (p ++ sep ++ c.name) c ++ entriesForest sep p cs

end

mutual

/-- Paths of all nodes of a subtree rooted at a given path. -/
def pathsOf (sep : String) : String → LNode → List String
  | p, .file _ _ _ _ => [p]
  | p, .folder _ _ _ cs => p :: pathsForest sep p cs

/-- Paths of all nodes of a list of sibling subtrees below a path. -/
def pathsForest (sep : String) : String → List LNode → List String
  | _, [] => []
  | p, c :: cs => pathsOf sep (p ++ sep ++ c.name) c ++ pathsForest sep p cs

end

mutual

/-- First index invariant of §3: on every node, fsid is UNDEFINED exactly when
the node is not indexed. -/
def agreeB : LNode → Bool
  | .file _ f i _ => f.isSome == i
  | .folder _ f i cs => (f.isSome == i) && agreeForest cs

/-- Fsid / indexed agreement over a list of sibling subtrees. -/
def agreeForest : List LNode → Bool
  | [] => true
  | c :: cs => agreeB c && agreeForest cs

end

mutual

/-- Every node of the subtree has fsid UNDEFINED and is not indexed. -/
def allCleared : LNode → Bool
  | .file _ f i _ => f == none && i == false
  | .folder _ f i cs => (f == none && i == false) && clearedForest cs

/-- Cleared state over a list of sibling subtrees. -/
def clearedForest : List LNode → Bool
  | [] => true
  | c :: cs => allCleared c && clearedForest cs

end

mutual

/-- Every node of the subtree has fsid UNDEFINED (the indexed flag is not
inspected). -/
def allFsidNone : LNode → Bool
  | .file _ f _ _ => f == none
  | .folder _ f _ cs => f == none && noneForest cs

/-- Fsid-free state over a list of sibling subtrees. -/
def noneForest : List LNode → Bool
  | [] => true
  | c :: cs => allFsidNone c && noneForest cs

end

mutual

/-- Number of nodes of the subtree currently holding a valid fsid. -/
def countAssigned : LNode → Nat
  | .file _ f _ _ => if f.isSome then 1 else 0
  | .folder _ f _ cs => (if f.isSome then 1 else 0) + countForest cs

/-- Number of assigned nodes in a list of sibling subtrees. -/
def countForest : List LNode → Nat
  | [] => 0
  | c :: cs => countAssigned c + countForest cs

end

mutual

/-- Navigation: fsid and indexed flag of the node reached from the root by a
list of child names, if it exists. -/
def statusAt : LNode → List String → Option (Option Nat × Bool)
  | t, [] => some (t.fsid, t.indexed)
  | .file _ _ _ _, _ :: _ => none
  | .folder _ _ _ cs, e :: p => statusAtForest cs e p

/-- Navigation among siblings by name. -/
def statusAtForest : List LNode → String → List String → Option (Option Nat × Bool)
  | [], _, _ => none
  | c :: cs, e, p => if c.name == e then statusAt c p else statusAtForest cs e p

end

/-- Keys currently present in the index. -/
def keys (idx : Index) : List Nat :=
  idx.map Prod.fst

/-- Simultaneous induction over a node and a forest, by strong induction on
size. -/
theorem lnode_mutual_ind (P : LNode → Prop) (Q : List LNode → Prop)
    (hfile : ∀ n f i fp, P (.file n f i fp))
    (hfolder : ∀ n f i cs, Q cs → P (.folder n f i cs))
    (hnil : Q [])
    (hcons : ∀ c cs, P c → Q cs → Q (c :: cs)) :
    (∀ t, P t) ∧ (∀ cs, Q cs) := by
  have key : ∀ N : Nat, (∀ t : LNode, sizeOf t ≤ N → P t) ∧
      (∀ cs : List LNode, sizeOf cs ≤ N → Q cs) := by
    intro N
    induction N with
    | zero =>
      constructor
      · intro t ht
        cases t <;> simp at ht
      · intro cs hcs
        cases cs with
        | nil => exact hnil
        | cons c cs => simp at hcs
    | succ N ih =>
      constructor
      · intro t ht
        cases t with
        | file n f i fp => exact hfile n f i fp
        | folder n f i cs =>
          refine hfolder n f i cs (ih.2 cs ?_)
          simp at ht
          omega
      · intro cs hcs
        cases cs with
        | nil => exact hnil
        | cons c cs =>
          simp at hcs
          exact hcons c cs (ih.1 c (by omega)) (ih.2 cs (by omega))
  exact ⟨fun t => (key (sizeOf t)).1 t le_rfl, fun cs => (key (sizeOf cs)).2 cs le_rfl⟩

/-! Claim C1: the path classifier contract. -/

/-- Characterization of the classifier: false exactly on the debris path and
on paths nested under it behind the separator. -/
theorem isPathSyncable_eq_false_iff (P D s : String) :
    isPathSyncable P D s = false ↔ (P = D ∨ ∃ t : String, P = (D ++ s) ++ t) := by
  unfold isPathSyncable
  simp only [Bool.not_eq_false', Bool.or_eq_true, beq_iff_eq, List.isPrefixOf_iff_prefix]
  apply or_congr Iff.rfl
  constructor
  · rintro ⟨l, hl⟩
    refine ⟨⟨l⟩, ?_⟩
    rw [String.ext_iff, String.data_append]
    exact hl.symm
  · rintro ⟨t, ht⟩
    exact ⟨t.data, by simp [ht, String.data_append]⟩

/-- Appending a nonempty string changes a string. -/
theorem append_ne_self (D x : String) (hx : x ≠ "") : D ++ x ≠ D := by
  intro h
  have hlen := congrArg String.length h
  rw [String.length_append] at hlen
  have hx0 : x.length = 0 := by omega
  apply hx
  rw [String.ext_iff]
  have : x.data.length = 0 := hx0
  exact List.length_eq_zero.mp this

/-- C1: for every path P, debris root D and separator s, isPathSyncable
returns false iff P equals D or P starts with D followed by s; a sibling
formed by appending "bar" directly after the debris name stays syncable, the
debris path followed by the bare separator is not syncable, and a path that
is a proper prefix of the debris path is syncable. -/
theorem isPathSyncable_spec :
    (∀ P D s : String,
        isPathSyncable P D s = false ↔ (P = D ∨ ∃ t : String, P = (D ++ s) ++ t))
    ∧ (∀ D : String, isPathSyncable (D ++ "bar") D "/" = true)
    ∧ (∀ D : String, isPathSyncable (D ++ "/") D "/" = false)
    ∧ (∀ P suf : String, suf ≠ "" → isPathSyncable P (P ++ suf) "/" = true) := by
  refine ⟨isPathSyncable_eq_false_iff, ?_, ?_, ?_⟩
  · intro D
    cases hb : isPathSyncable (D ++ "bar") D "/" with
    | true => rfl
    | false =>
      exfalso
      rcases (isPathSyncable_eq_false_iff _ _ _).mp hb with h1 | ⟨t, h2⟩
      · exact append_ne_self D "bar" (by decide) h1
      · have hd := congrArg String.data h2
        simp only [String.data_append, List.append_assoc] at hd
        have hcancel := List.append_cancel_left hd
        simp at hcancel
  · intro D
    apply (isPathSyncable_eq_false_iff _ _ _).mpr
    exact Or.inr ⟨"", by rw [String.ext_iff]; simp [String.data_append]⟩
  · intro P suf hsuf
    cases hb : isPathSyncable P (P ++ suf) "/" with
    | true => rfl
    | false =>
      exfalso
      rcases (isPathSyncable_eq_false_iff _ _ _).mp hb with h1 | ⟨t, h2⟩
      · exact append_ne_self P suf hsuf h1.symm
      · have hlen := congrArg String.length h2
        simp only [String.length_append] at hlen
        have hsufpos : 0 < suf.length := by
          rcases Nat.eq_zero_or_pos suf.length with h0 | h0
          · exfalso
            apply hsuf
            rw [String.ext_iff]
            exact List.length_eq_zero.mp h0
          · exact h0
        have hslash : ("/" : String).length = 1 := rfl
        omega

/-- Witness for C1 at the concrete inputs of the unit test. -/
theorem isPathSyncable_spec_witness :
    isPathSyncable "dir/foo" ("dir/foo" ++ ".debris") "/" = true
    ∧ isPathSyncable (".debris" ++ "/") ".debris" "/" = false
    ∧ isPathSyncable (".debris" ++ "bar") ".debris" "/" = true :=
  ⟨isPathSyncable_spec.2.2.2 "dir/foo" ".debris" (by decide),
   isPathSyncable_spec.2.2.1 ".debris",
   isPathSyncable_spec.2.1 ".debris"⟩

/-! Concrete fixture mirroring TEST(Sync, assignFilesystemIds_whenFilesystemMatchesLocalNodes):
the on-disk tree d{ d_0{f_0_0, f_0_1}, d_1{f_1_0, d_1_1{f_1_1_0}}, f_2 } with
pairwise-distinct fsids, and the matching local node tree whose file
fingerprints equal the on-disk ones. -/

/-- On-disk identity data of every node of the fixture filesystem. -/
def fsTable : List (String × FileInfo) :=
  [ ("d", ⟨.folder, 0, ⟨0, 0, 0⟩⟩)
  , ("d/d_0", ⟨.folder, 1, ⟨0, 0, 0⟩⟩)
  , ("d/d_1", ⟨.folder, 2, ⟨0, 0, 0⟩⟩)
  , ("d/f_2", ⟨.file, 3, ⟨13, 13, 13⟩⟩)
  , ("d/d_0/f_0_0", ⟨.file, 4, ⟨14, 14, 14⟩⟩)
  , ("d/d_0/f_0_1", ⟨.file, 5, ⟨15, 15, 15⟩⟩)
  , ("d/d_1/f_1_0", ⟨.file, 6, ⟨16, 16, 16⟩⟩)
  , ("d/d_1/d_1_1", ⟨.folder, 7, ⟨0, 0, 0⟩⟩)
  , ("d/d_1/d_1_1/f_1_1_0", ⟨.file, 8, ⟨18, 18, 18⟩⟩) ]

/-- Directory listing of every folder of the fixture filesystem. -/
def dirTable : List (String × List String) :=
  [ ("d", ["d_0", "d_1", "f_2"])
  , ("d/d_0", ["f_0_0", "f_0_1"])
  , ("d/d_1", ["f_1_0", "d_1_1"])
  , ("d/d_1/d_1_1", ["f_1_1_0"]) ]

/-- Deterministic in-memory scanner over the fixture filesystem. -/
def testScanner : Scanner where
  dopen p := dirTable.lookup p
  fopen p := fsTable.lookup p

/-- Local node tree of the fixture, with matching fingerprints and no fsids
assigned yet. -/
def testTree : LNode :=
  .folder "d" none false
    [ .folder "d_0" none false
        [ .file "f_0_0" none false ⟨14, 14, 14⟩
        , .file "f_0_1" none false ⟨15, 15, 15⟩ ]
    , .folder "d_1" none false
        [ .file "f_1_0" none false ⟨16, 16, 16⟩
        , .folder "d_1_1" none false
            [ .file "f_1_1_0" none false ⟨18, 18, 18⟩ ] ]
    , .file "f_2" none false ⟨13, 13, 13⟩ ]

/-- Result of running the assignment pass over the fixture. -/
def testResult : Bool × LNode × Index :=
  assignFilesystemIds (fun _ => true) testScanner testTree "d" [] "d/.debris" "/" true

/-- C2: on the fixture tree whose on-disk counterparts all match, the pass
returns true, the index ends with exactly five entries — one per file node,
keyed by that file's on-disk fsid at the file's path — every file node's fsid
equals the fsid of its on-disk counterpart and is indexed, and every folder
node's fsid remains UNDEFINED. -/
theorem assignFilesystemIds_matchingTree :
    testResult.1 = true
    ∧ testResult.2.2.length = 5
    ∧ testResult.2.2.Perm
        [ (4, "d/d_0/f_0_0"), (5, "d/d_0/f_0_1"), (6, "d/d_1/f_1_0")
        , (8, "d/d_1/d_1_1/f_1_1_0"), (3, "d/f_2") ]
    ∧ statusAt testResult.2.1 [] = some (none, false)
    ∧ statusAt testResult.2.1 ["d_0"] = some (none, false)
    ∧ statusAt testResult.2.1 ["d_1"] = some (none, false)
    ∧ statusAt testResult.2.1 ["d_1", "d_1_1"] = some (none, false)
    ∧ statusAt testResult.2.1 ["f_2"]
        = some ((testScanner.fopen "d/f_2").map FileInfo.fsid, true)
    ∧ statusAt testResult.2.1 ["d_0", "f_0_0"]
        = some ((testScanner.fopen "d/d_0/f_0_0").map FileInfo.fsid, true)
    ∧ statusAt testResult.2.1 ["d_0", "f_0_1"]
        = some ((testScanner.fopen "d/d_0/f_0_1").map FileInfo.fsid, true)
    ∧ statusAt testResult.2.1 ["d_1", "f_1_0"]
        = some ((testScanner.fopen "d/d_1/f_1_0").map FileInfo.fsid, true)
    ∧ statusAt testResult.2.1 ["d_1", "d_1_1", "f_1_1_0"]
        = some ((testScanner.fopen "d/d_1/d_1_1/f_1_1_0").map FileInfo.fsid, true) := by
  decide

/-! Unfolding equations for the invalidation pass, stated per constructor so
that later proofs can rewrite without reducing let-bound pairs. -/

@[simp]
theorem inv_file_some (idx : Index) (n : String) (k : Nat) (i : Bool) (fp : Fingerprint) :
    invalidateFilesystemIds idx (.file n (some k) i fp) = (removeId idx k, .file n none false fp) := by
  simp [invalidateFilesystemIds]

@[simp]
theorem inv_file_none (idx : Index) (n : String) (i : Bool) (fp : Fingerprint) :
    invalidateFilesystemIds idx (.file n none i fp) = (idx, .file n none i fp) := by
  simp [invalidateFilesystemIds]

@[simp]
theorem inv_folder_some (idx : Index) (n : String) (k : Nat) (i : Bool) (cs : List LNode) :
    invalidateFilesystemIds idx (.folder n (some k) i cs) =
      ((invalidateForest (removeId idx k) cs).1,
        .folder n none false (invalidateForest (removeId idx k) cs).2) := by
  cases h : invalidateForest (removeId idx k) cs
  simp [invalidateFilesystemIds, h]

@[simp]
theorem inv_folder_none (idx : Index) (n : String) (i : Bool) (cs : List LNode) :
    invalidateFilesystemIds idx (.folder n none i cs) =
      ((invalidateForest idx cs).1, .folder n none i (invalidateForest idx cs).2) := by
  cases h : invalidateForest idx cs
  simp [invalidateFilesystemIds, h]

@[simp]
theorem invForest_nil (idx : Index) : invalidateForest idx [] = (idx, []) := by
  simp [invalidateForest]

@[simp]
theorem invForest_cons (idx : Index) (c : LNode) (cs : List LNode) :
    invalidateForest idx (c :: cs) =
      ((invalidateForest (invalidateFilesystemIds idx c).1 cs).1,
        (invalidateFilesystemIds idx c).2 ::
          (invalidateForest (invalidateFilesystemIds idx c).1 cs).2) := by
  cases h1 : invalidateFilesystemIds idx c
  cases h2 : invalidateForest (invalidateFilesystemIds idx c).1 cs
  simp [invalidateForest, h1]

/-- Membership in the index returned by the invalidation pass: exactly the
old entries whose key is not a valid fsid of the invalidated subtree. -/
theorem invalidate_mem_fst :
    (∀ t : LNode, ∀ idx : Index, ∀ e : Nat × String,
        e ∈ (invalidateFilesystemIds idx t).1 ↔ e ∈ idx ∧ e.1 ∉ validFsids t)
    ∧ (∀ cs : List LNode, ∀ idx : Index, ∀ e : Nat × String,
        e ∈ (invalidateForest idx cs).1 ↔ e ∈ idx ∧ e.1 ∉ validFsidsForest cs) := by
  apply lnode_mutual_ind
  · intro n f i fp idx e
    cases f with
    | none => simp [validFsids]
    | some k =>
      simp [validFsids, removeId, List.mem_filter]
  · intro n f i cs ih idx e
    cases f with
    | none =>
      simp [validFsids, ih]
    | some k =>
      simp [validFsids, ih, removeId, List.mem_filter]
      tauto
  · intro idx e
    simp [validFsidsForest]
  · intro c cs ihc ihcs idx e
    simp [validFsidsForest, ihcs, ihc]
    tauto

/-- Tree shape returned by the invalidation pass. -/
theorem invalidate_snd :
    (∀ t : LNode, ∀ idx : Index, (invalidateFilesystemIds idx t).2 = invTree t)
    ∧ (∀ cs : List LNode, ∀ idx : Index, (invalidateForest idx cs).2 = invForest cs) := by
  apply lnode_mutual_ind
  · intro n f i fp idx
    cases f <;> simp [invTree]
  · intro n f i cs ih idx
    cases f <;> simp [invTree, ih]
  · intro idx
    simp [invForest]
  · intro c cs ihc ihcs idx
    simp [invForest, ihc, ihcs]

/-- Every entry contributed by a subtree is keyed by a valid fsid of that
subtree. -/
theorem entriesOf_key_mem :
    (∀ t : LNode, ∀ sep p : String, ∀ e : Nat × String,
        e ∈ entriesOf sep p t → e.1 ∈ validFsids t)
    ∧ (∀ cs : List LNode, ∀ sep p : String, ∀ e : Nat × String,
        e ∈ entriesForest sep p cs → e.1 ∈ validFsidsForest cs) := by
  apply lnode_mutual_ind
  · intro n f i fp sep p e
    cases f <;> simp [entriesOf, validFsids]
    intro h
    simp [h]
  · intro n f i cs ih sep p e
    cases f with
    | none =>
      intro h
      simp [entriesOf, validFsids] at h ⊢
      exact ih sep p e h
    | some k =>
      intro h
      simp [entriesOf, validFsids] at h ⊢
      rcases h with h | h
      · left; rw [h]
      · right; exact ih sep p e h
  · intro sep p e
    simp [entriesForest]
  · intro c cs ihc ihcs sep p e
    intro h
    simp [entriesForest, validFsidsForest] at h ⊢
    rcases h with h | h
    · left; exact ihc sep _ e h
    · right; exact ihcs sep p e h

/-- The tree produced by invalidation never holds a valid fsid. -/
theorem allFsidNone_invTree :
    (∀ t : LNode, allFsidNone (invTree t) = true)
    ∧ (∀ cs : List LNode, noneForest (invForest cs) = true) := by
  apply lnode_mutual_ind
  · intro n f i fp
    cases f <;> simp [invTree, allFsidNone]
  · intro n f i cs ih
    cases f <;> simp [invTree, allFsidNone, ih]
  · simp [invForest, noneForest]
  · intro c cs ihc ihcs
    simp [invForest, noneForest, ihc, ihcs]

/-- On a tree whose nodes all agree between fsid and indexed flag,
invalidation clears every node completely. -/
theorem allCleared_invTree :
    (∀ t : LNode, agreeB t = true → allCleared (invTree t) = true)
    ∧ (∀ cs : List LNode, agreeForest cs = true → clearedForest (invForest cs) = true) := by
  apply lnode_mutual_ind
  · intro n f i fp h
    cases f with
    | none =>
      simp [agreeB] at h
      simp [invTree, allCleared, h]
    | some k =>
      simp [invTree, allCleared]
  · intro n f i cs ih h
    cases f with
    | none =>
      simp [agreeB] at h
      simp [invTree, allCleared, h.1, ih h.2]
    | some k =>
      simp [agreeB] at h
      simp [invTree, allCleared, ih h.2]
  · intro _
    simp [invForest, clearedForest]
  · intro c cs ihc ihcs h
    simp [agreeForest] at h
    simp [invForest, clearedForest, ihc h.1, ihcs h.2]

/-- Invalidation is the identity on a subtree that holds no valid fsid. -/
theorem invalidate_noop :
    (∀ t : LNode, allFsidNone t = true → ∀ idx : Index, invalidateFilesystemIds idx t = (idx, t))
    ∧ (∀ cs : List LNode, noneForest cs = true → ∀ idx : Index, invalidateForest idx cs = (idx, cs)) := by
  apply lnode_mutual_ind
  · intro n f i fp h idx
    cases f with
    | none => simp
    | some k => simp [allFsidNone] at h
  · intro n f i cs ih h idx
    cases f with
    | none =>
      simp [allFsidNone] at h
      simp [ih h idx]
    | some k => simp [allFsidNone] at h
  · intro _ idx
    simp
  · intro c cs ihc ihcs h idx
    simp [noneForest] at h
    simp [ihc h.1, ihcs h.2]

/-! Claim C3: post-condition of the invalidation pass. -/

/-- C3: under the data-model invariants (fsid / indexed agreement on the
subtree, index entries of the subtree keyed at the subtree's nodes, remaining
entries living outside the subtree), after invalidateFilesystemIds the index
holds no entry for any node of the subtree, and every node of the subtree has
fsid UNDEFINED and is marked not indexed. -/
theorem invalidateFilesystemIds_post (sep p : String) (t : LNode) (idx rest : Index)
    (hagree : agreeB t = true)
    (hcorr : idx.Perm (entriesOf sep p t ++ rest))
    (hrest : ∀ e ∈ rest, e.2 ∉ pathsOf sep p t) :
    allCleared (invalidateFilesystemIds idx t).2 = true
    ∧ ∀ k q, q ∈ pathsOf sep p t → (k, q) ∉ (invalidateFilesystemIds idx t).1 := by
  constructor
  · rw [invalidate_snd.1]
    exact allCleared_invTree.1 t hagree
  · intro k q hq hmem
    rw [invalidate_mem_fst.1] at hmem
    obtain ⟨hin, hnot⟩ := hmem
    have hin2 := hcorr.mem_iff.mp hin
    rw [List.mem_append] at hin2
    rcases hin2 with h | h
    · exact hnot (entriesOf_key_mem.1 t sep p _ h)
    · exact hrest _ h hq

/-- Witness for C3 on a concrete two-node subtree with a fully corresponding
index. -/
theorem invalidateFilesystemIds_post_witness :
    allCleared (invalidateFilesystemIds [(1, "d"), (2, "d/f")]
      (.folder "d" (some 1) true [.file "f" (some 2) true ⟨0, 0, 0⟩])).2 = true
    ∧ ∀ k q, q ∈ pathsOf "/" "d"
        (.folder "d" (some 1) true [.file "f" (some 2) true ⟨0, 0, 0⟩]) →
      (k, q) ∉ (invalidateFilesystemIds [(1, "d"), (2, "d/f")]
        (.folder "d" (some 1) true [.file "f" (some 2) true ⟨0, 0, 0⟩])).1 :=
  invalidateFilesystemIds_post "/" "d"
    (.folder "d" (some 1) true [.file "f" (some 2) true ⟨0, 0, 0⟩])
    [(1, "d"), (2, "d/f")] []
    (by decide) (by decide) (by simp)

/-! Claim C9: invalidation is idempotent. -/

/-- C9: running invalidateFilesystemIds a second time on the index and
subtree produced by a first run changes neither of them — the second call is
a no-op (the operation itself consults no scanner: its arguments are only the
index and the subtree). -/
theorem invalidateFilesystemIds_idempotent (idx : Index) (t : LNode) :
    invalidateFilesystemIds (invalidateFilesystemIds idx t).1
        (invalidateFilesystemIds idx t).2 =
      ((invalidateFilesystemIds idx t).1, (invalidateFilesystemIds idx t).2) := by
  rw [invalidate_snd.1]
  exact invalidate_noop.1 (invTree t) (allFsidNone_invTree.1 t) _

/-! Claim C10: the root folder is treated exactly like a file node. -/

/-- C10: a folder node — here the subtree root — can hold a valid fsid and an
index entry, and invalidation treats it exactly like a file node: afterwards
the root folder's own fsid is UNDEFINED, it is marked not indexed, and no
index entry keyed by its former fsid survives. -/
theorem invalidateFilesystemIds_rootFolder (n : String) (k : Nat) (cs : List LNode)
    (idx : Index) :
    (invalidateFilesystemIds idx (.folder n (some k) true cs)).2.fsid = none
    ∧ (invalidateFilesystemIds idx (.folder n (some k) true cs)).2.indexed = false
    ∧ ∀ q : String, (k, q) ∉ (invalidateFilesystemIds idx (.folder n (some k) true cs)).1 := by
  refine ⟨by simp [LNode.fsid], by simp [LNode.indexed], ?_⟩
  intro q hmem
  rw [invalidate_mem_fst.1] at hmem
  simp [validFsids] at hmem

/-! Unfolding equations for the assignment pass. -/

@[simp]
theorem assignChildren_nil (sc : Scanner) (debris sep path : String) (entries : List String)
    (idx : Index) : assignChildren sc debris sep path entries [] idx = ([], idx) := by
  simp [assignChildren]

theorem assignChildren_cons_pos (sc : Scanner) (debris sep path : String)
    (entries : List String) (c : LNode) (rest : List LNode) (idx : Index)
    (hg : entries.contains c.name = true
          ∧ isPathSyncable (path ++ sep ++ c.name) debris sep = true) :
    assignChildren sc debris sep path entries (c :: rest) idx =
      ((assignNode sc debris sep (path ++ sep ++ c.name) c idx).1 ::
        (assignChildren sc debris sep path entries rest
          (assignNode sc debris sep (path ++ sep ++ c.name) c idx).2).1,
       (assignChildren sc debris sep path entries rest
          (assignNode sc debris sep (path ++ sep ++ c.name) c idx).2).2) := by
  cases h1 : assignNode sc debris sep (path ++ sep ++ c.name) c idx with
  | mk a b =>
    cases h2 : assignChildren sc debris sep path entries rest b with
    | mk xs j =>
      simp only [assignChildren]
      rw [if_pos hg, h1]
      simp [h1, h2]

theorem assignChildren_cons_neg (sc : Scanner) (debris sep path : String)
    (entries : List String) (c : LNode) (rest : List LNode) (idx : Index)
    (hg : ¬(entries.contains c.name = true
            ∧ isPathSyncable (path ++ sep ++ c.name) debris sep = true)) :
    assignChildren sc debris sep path entries (c :: rest) idx =
      (c :: (assignChildren sc debris sep path entries rest idx).1,
       (assignChildren sc debris sep path entries rest idx).2) := by
  cases h2 : assignChildren sc debris sep path entries rest idx with
  | mk xs j =>
    simp only [assignChildren]
    rw [if_neg hg]
    simp [h2]

theorem assignNode_folder_fail (sc : Scanner) (debris sep path : String)
    (n : String) (f : Option Nat) (i : Bool) (cs : List LNode) (idx : Index)
    (h : sc.dopen path = none) :
    assignNode sc debris sep path (.folder n f i cs) idx = (.folder n f i cs, idx) := by
  simp [assignNode, h]

theorem assignNode_folder_scan (sc : Scanner) (debris sep path : String)
    (n : String) (f : Option Nat) (i : Bool) (cs : List LNode) (idx : Index)
    (entries : List String) (h : sc.dopen path = some entries) :
    assignNode sc debris sep path (.folder n f i cs) idx =
      (.folder n f i (assignChildren sc debris sep path entries cs idx).1,
       (assignChildren sc debris sep path entries cs idx).2) := by
  cases h2 : assignChildren sc debris sep path entries cs idx
  simp [assignNode, h, h2]

theorem assignNode_file_fail (sc : Scanner) (debris sep path : String)
    (n : String) (f : Option Nat) (i : Bool) (fp : Fingerprint) (idx : Index)
    (h : sc.fopen path = none) :
    assignNode sc debris sep path (.file n f i fp) idx = (.file n f i fp, idx) := by
  simp [assignNode, h]

theorem assignNode_file_mismatch (sc : Scanner) (debris sep path : String)
    (n : String) (f : Option Nat) (i : Bool) (fp : Fingerprint) (idx : Index)
    (info : FileInfo) (h : sc.fopen path = some info)
    (hmis : ¬(info.kind = .file ∧ info.fp = fp)) :
    assignNode sc debris sep path (.file n f i fp) idx = (.file n f i fp, idx) := by
  simp [assignNode, h, hmis]

theorem assignNode_file_match_none (sc : Scanner) (debris sep path : String)
    (n : String) (i : Bool) (fp : Fingerprint) (idx : Index)
    (info : FileInfo) (h : sc.fopen path = some info)
    (hk : info.kind = .file) (hfp : info.fp = fp) :
    assignNode sc debris sep path (.file n none i fp) idx =
      (.file n (some info.fsid) true fp, (info.fsid, path) :: idx) := by
  simp [assignNode, h, hk, hfp]

theorem assignNode_file_match_some (sc : Scanner) (debris sep path : String)
    (n : String) (k : Nat) (i : Bool) (fp : Fingerprint) (idx : Index)
    (info : FileInfo) (h : sc.fopen path = some info)
    (hk : info.kind = .file) (hfp : info.fp = fp) :
    assignNode sc debris sep path (.file n (some k) i fp) idx =
      (.file n (some info.fsid) true fp, (info.fsid, path) :: removeId idx k) := by
  simp [assignNode, h, hk, hfp]

/-! Claim C4: the policy veto leaves everything untouched. -/

/-- C4: if the policy hook vetoes the tree's root path, assignFilesystemIds
returns false and leaves both the tree and the index exactly as they were. -/
theorem assignFilesystemIds_veto (policyHook : String → Bool) (sc : Scanner) (t : LNode)
    (rootPath : String) (idx : Index) (debris sep : String) (strict : Bool)
    (h : policyHook rootPath = false) :
    assignFilesystemIds policyHook sc t rootPath idx debris sep strict = (false, t, idx) := by
  simp [assignFilesystemIds, h]

/-- Witness for C4 on the concrete fixture with an always-vetoing hook. -/
theorem assignFilesystemIds_veto_witness :
    assignFilesystemIds (fun _ => false) testScanner testTree "d" [] "d/.debris" "/" true
      = (false, testTree, []) :=
  assignFilesystemIds_veto (fun _ => false) testScanner testTree "d" [] "d/.debris" "/" true rfl

/-! Claim C5: per-entry scan failures never escalate. -/

/-- C5: the return value of assignFilesystemIds depends only on the root veto
and the root's own scan — for every tree and every pattern of per-entry scan
failures it is true iff the hook allows the root and the root directory
opens; a non-root folder whose directory fails to open is skipped with its
entire subtree's fsid state and the index left as they were; and the scan
continues with the siblings of such a folder. -/
theorem assignFilesystemIds_scanFailure :
    (∀ (policyHook : String → Bool) (sc : Scanner) (t : LNode) (rootPath : String)
        (idx : Index) (debris sep : String) (strict : Bool),
      (assignFilesystemIds policyHook sc t rootPath idx debris sep strict).1 =
        (policyHook rootPath && (sc.dopen rootPath).isSome))
    ∧ (∀ (sc : Scanner) (debris sep path : String) (n : String) (f : Option Nat)
        (i : Bool) (cs : List LNode) (idx : Index),
      sc.dopen path = none →
      assignNode sc debris sep path (.folder n f i cs) idx = (.folder n f i cs, idx))
    ∧ (∀ (sc : Scanner) (debris sep path : String) (entries : List String)
        (n : String) (f : Option Nat) (i : Bool) (cs rest : List LNode) (idx : Index),
      sc.dopen (path ++ sep ++ (LNode.folder n f i cs).name) = none →
      assignChildren sc debris sep path entries (.folder n f i cs :: rest) idx =
        (.folder n f i cs :: (assignChildren sc debris sep path entries rest idx).1,
         (assignChildren sc debris sep path entries rest idx).2)) := by
  refine ⟨?_, ?_, ?_⟩
  · intro policyHook sc t rootPath idx debris sep strict
    cases hh : policyHook rootPath with
    | false => simp [assignFilesystemIds, hh]
    | true =>
      cases hd : sc.dopen rootPath with
      | none => simp [assignFilesystemIds, hh, hd]
      | some entries =>
        cases ha : assignNode sc debris sep rootPath t idx
        simp [assignFilesystemIds, hh, hd, ha]
  · intro sc debris sep path n f i cs idx h
    exact assignNode_folder_fail sc debris sep path n f i cs idx h
  · intro sc debris sep path entries n f i cs rest idx h
    by_cases hg : entries.contains (LNode.folder n f i cs).name = true
        ∧ isPathSyncable (path ++ sep ++ (LNode.folder n f i cs).name) debris sep = true
    · rw [assignChildren_cons_pos sc debris sep path entries _ rest idx hg,
        assignNode_folder_fail sc debris sep _ n f i cs idx h]
    · rw [assignChildren_cons_neg sc debris sep path entries _ rest idx hg]

/-- Witness for C5: a scanner whose root opens but whose only subdirectory
fails to open; the pass still returns true and the failing subtree with its
sibling file is processed as claimed. -/
theorem assignFilesystemIds_scanFailure_witness :
    (assignFilesystemIds (fun _ => true)
        ⟨fun p => if p = "r" then some ["a", "g"] else none, fun _ => none⟩
        (.folder "r" none false [.folder "a" none false [], .file "g" none false ⟨1, 1, 1⟩])
        "r" [] "r/.debris" "/" true).1 =
      ((fun (_ : String) => true) "r"
        && ((⟨fun p => if p = "r" then some ["a", "g"] else none, fun _ => none⟩ :
              Scanner).dopen "r").isSome)
    ∧ assignNode ⟨fun p => if p = "r" then some ["a", "g"] else none, fun _ => none⟩
        "r/.debris" "/" "r/a" (.folder "a" none false []) [] = (.folder "a" none false [], [])
    ∧ assignChildren ⟨fun p => if p = "r" then some ["a", "g"] else none, fun _ => none⟩
        "r/.debris" "/" "r" ["a", "g"]
        (.folder "a" none false [] :: [.file "g" none false ⟨1, 1, 1⟩]) [] =
      (.folder "a" none false [] ::
        (assignChildren ⟨fun p => if p = "r" then some ["a", "g"] else none, fun _ => none⟩
          "r/.debris" "/" "r" ["a", "g"] [.file "g" none false ⟨1, 1, 1⟩] []).1,
       (assignChildren ⟨fun p => if p = "r" then some ["a", "g"] else none, fun _ => none⟩
          "r/.debris" "/" "r" ["a", "g"] [.file "g" none false ⟨1, 1, 1⟩] []).2) :=
  ⟨assignFilesystemIds_scanFailure.1 (fun _ => true)
      ⟨fun p => if p = "r" then some ["a", "g"] else none, fun _ => none⟩
      (.folder "r" none false [.folder "a" none false [], .file "g" none false ⟨1, 1, 1⟩])
      "r" [] "r/.debris" "/" true,
   assignFilesystemIds_scanFailure.2.1
      ⟨fun p => if p = "r" then some ["a", "g"] else none, fun _ => none⟩
      "r/.debris" "/" "r/a" "a" none false [] [] (by decide),
   assignFilesystemIds_scanFailure.2.2
      ⟨fun p => if p = "r" then some ["a", "g"] else none, fun _ => none⟩
      "r/.debris" "/" "r" ["a", "g"] "a" none false [] [.file "g" none false ⟨1, 1, 1⟩] []
      (by decide)⟩

/-! Claim C6: a fingerprint mismatch defers the decision. -/

/-- C6: when the fingerprint computed from the on-disk entry differs from the
stored one, the file child is left completely untouched by the per-entry
worker of assignFilesystemIds — its fsid stays as it was (UNDEFINED stays
UNDEFINED) and no index entry is created. -/
theorem assignNode_fingerprintMismatch (sc : Scanner) (debris sep path : String)
    (n : String) (f : Option Nat) (i : Bool) (fp : Fingerprint) (idx : Index)
    (info : FileInfo) (h : sc.fopen path = some info) (hne : info.fp ≠ fp) :
    assignNode sc debris sep path (.file n f i fp) idx = (.file n f i fp, idx) := by
  apply assignNode_file_mismatch sc debris sep path n f i fp idx info h
  intro hc
  exact hne hc.2

/-- Witness for C6 at a concrete mismatching file. -/
theorem assignNode_fingerprintMismatch_witness :
    assignNode ⟨fun _ => none, fun p => if p = "d/f" then some ⟨.file, 9, ⟨2, 2, 2⟩⟩ else none⟩
        "d/.debris" "/" "d/f" (.file "f" none false ⟨1, 1, 1⟩) [] =
      (.file "f" none false ⟨1, 1, 1⟩, []) :=
  assignNode_fingerprintMismatch
    ⟨fun _ => none, fun p => if p = "d/f" then some ⟨.file, 9, ⟨2, 2, 2⟩⟩ else none⟩
    "d/.debris" "/" "d/f" "f" none false ⟨1, 1, 1⟩ [] ⟨.file, 9, ⟨2, 2, 2⟩⟩
    (by decide) (by decide)

/-! Claim C7: everything at or under the debris path is skipped. -/

/-- C7: a child whose path is not syncable is skipped entirely by the
per-directory loop — it is not recursed into, not matched and not assigned,
so its whole subtree's fsid state and the index contribution are unchanged;
the debris path itself and every path nested under it behind the separator
are never syncable, while a sibling whose name merely extends the debris name
without a separator boundary is syncable and hence processed normally. -/
theorem assignChildren_debrisSkipped :
    (∀ (sc : Scanner) (debris sep path : String) (entries : List String)
        (c : LNode) (rest : List LNode) (idx : Index),
      isPathSyncable (path ++ sep ++ c.name) debris sep = false →
      assignChildren sc debris sep path entries (c :: rest) idx =
        (c :: (assignChildren sc debris sep path entries rest idx).1,
         (assignChildren sc debris sep path entries rest idx).2))
    ∧ (∀ debris sep : String, isPathSyncable debris debris sep = false)
    ∧ (∀ debris sep t : String, isPathSyncable (debris ++ sep ++ t) debris sep = false)
    ∧ (∀ (sc : Scanner) (debris sep path : String) (entries : List String)
        (c : LNode) (rest : List LNode) (idx : Index),
      entries.contains c.name = true →
      isPathSyncable (path ++ sep ++ c.name) debris sep = true →
      assignChildren sc debris sep path entries (c :: rest) idx =
        ((assignNode sc debris sep (path ++ sep ++ c.name) c idx).1 ::
          (assignChildren sc debris sep path entries rest
            (assignNode sc debris sep (path ++ sep ++ c.name) c idx).2).1,
         (assignChildren sc debris sep path entries rest
            (assignNode sc debris sep (path ++ sep ++ c.name) c idx).2).2)) := by
  refine ⟨?_, ?_, ?_, ?_⟩
  · intro sc debris sep path entries c rest idx h
    apply assignChildren_cons_neg
    intro hc
    rw [h] at hc
    exact Bool.false_ne_true hc.2
  · intro debris sep
    exact (isPathSyncable_eq_false_iff _ _ _).mpr (Or.inl rfl)
  · intro debris sep t
    apply (isPathSyncable_eq_false_iff _ _ _).mpr
    exact Or.inr ⟨t, rfl⟩
  · intro sc debris sep path entries c rest idx h1 h2
    exact assignChildren_cons_pos sc debris sep path entries c rest idx ⟨h1, h2⟩

/-- Witness for C7: a debris folder child is skipped while a sibling whose
name merely extends the debris name is processed. -/
theorem assignChildren_debrisSkipped_witness :
    assignChildren testScanner "d/.debris" "/" "d" [".debris", ".debrisbar"]
        (.folder ".debris" none false [] :: []) [] =
      (.folder ".debris" none false [] ::
        (assignChildren testScanner "d/.debris" "/" "d" [".debris", ".debrisbar"] [] []).1,
       (assignChildren testScanner "d/.debris" "/" "d" [".debris", ".debrisbar"] [] []).2)
    ∧ isPathSyncable "d/.debris" "d/.debris" "/" = false
    ∧ isPathSyncable ("d/.debris" ++ "/" ++ "x") "d/.debris" "/" = false
    ∧ assignChildren testScanner "d/.debris" "/" "d" [".debrisbar"]
        (.file ".debrisbar" none false ⟨1, 1, 1⟩ :: []) [] =
      ((assignNode testScanner "d/.debris" "/" ("d" ++ "/" ++ ".debrisbar")
          (.file ".debrisbar" none false ⟨1, 1, 1⟩) []).1 ::
        (assignChildren testScanner "d/.debris" "/" "d" [".debrisbar"] []
          (assignNode testScanner "d/.debris" "/" ("d" ++ "/" ++ ".debrisbar")
            (.file ".debrisbar" none false ⟨1, 1, 1⟩) []).2).1,
       (assignChildren testScanner "d/.debris" "/" "d" [".debrisbar"] []
          (assignNode testScanner "d/.debris" "/" ("d" ++ "/" ++ ".debrisbar")
            (.file ".debrisbar" none false ⟨1, 1, 1⟩) []).2).2) :=
  ⟨assignChildren_debrisSkipped.1 testScanner "d/.debris" "/" "d" [".debris", ".debrisbar"]
      (.folder ".debris" none false []) [] [] (by decide),
   assignChildren_debrisSkipped.2.1 "d/.debris" "/",
   assignChildren_debrisSkipped.2.2.1 "d/.debris" "/" "x",
   assignChildren_debrisSkipped.2.2.2 testScanner "d/.debris" "/" "d" [".debrisbar"]
      (.file ".debrisbar" none false ⟨1, 1, 1⟩) [] [] (by decide) (by decide)⟩

/-! Supporting lemmas for the invariant-preservation claim. -/

/-- Exchanging the two leading blocks of a three-block concatenation is a
permutation. -/
theorem perm_append_swap (a b c : Index) : (a ++ (b ++ c)).Perm (b ++ (a ++ c)) := by
  have h1 := (@List.perm_append_comm _ a b).append_right c
  simpa [List.append_assoc] using h1

/-- Removing an id not present in the index is a no-op. -/
theorem removeId_eq_self (idx : Index) (k : Nat) (h : k ∉ keys idx) : removeId idx k = idx := by
  rw [removeId, List.filter_eq_self]
  intro a ha
  simp only [ne_eq, decide_eq_true_eq]
  intro hak
  apply h
  rw [← hak]
  exact List.mem_map.mpr ⟨a, ha, rfl⟩

/-- Removing an id erases a leading entry with that key. -/
theorem removeId_cons_self (idx : Index) (k : Nat) (p : String) :
    removeId ((k, p) :: idx) k = removeId idx k := by
  simp [removeId]

/-- Key uniqueness survives a removal. -/
theorem keys_nodup_removeId (idx : Index) (k : Nat) (h : (keys idx).Nodup) :
    (keys (removeId idx k)).Nodup :=
  List.Nodup.sublist (List.Sublist.map Prod.fst (List.filter_sublist idx)) h

/-- Every entry of a subtree lives at the path of one of its nodes. -/
theorem entriesOf_sub_paths :
    (∀ t : LNode, ∀ sep p : String, ∀ e : Nat × String,
        e ∈ entriesOf sep p t → e.2 ∈ pathsOf sep p t)
    ∧ (∀ cs : List LNode, ∀ sep p : String, ∀ e : Nat × String,
        e ∈ entriesForest sep p cs → e.2 ∈ pathsForest sep p cs) := by
  apply lnode_mutual_ind
  · intro n f i fp sep p e
    cases f with
    | none => simp [entriesOf, pathsOf]
    | some k =>
      simp [entriesOf, pathsOf]
      intro h
      simp [h]
  · intro n f i cs ih sep p e
    cases f with
    | none =>
      intro h
      simp [entriesOf, pathsOf] at h ⊢
      exact Or.inr (ih sep p e h)
    | some k =>
      intro h
      simp [entriesOf, pathsOf] at h ⊢
      rcases h with h | h
      · left; rw [h]
      · exact Or.inr (ih sep p e h)
  · intro sep p e
    simp [entriesForest]
  · intro c cs ihc ihcs sep p e
    intro h
    simp [entriesForest, pathsForest] at h ⊢
    rcases h with h | h
    · exact Or.inl (ihc sep _ e h)
    · exact Or.inr (ihcs sep p e h)

/-- The number of entries a subtree contributes equals the number of its
nodes holding a valid fsid. -/
theorem entriesOf_length :
    (∀ t : LNode, ∀ sep p : String, (entriesOf sep p t).length = countAssigned t)
    ∧ (∀ cs : List LNode, ∀ sep p : String,
        (entriesForest sep p cs).length = countForest cs) := by
  apply lnode_mutual_ind
  · intro n f i fp sep p
    cases f <;> simp [entriesOf, countAssigned]
  · intro n f i cs ih sep p
    cases f <;> simp [entriesOf, countAssigned, ih] <;> omega
  · intro sep p
    simp [entriesForest, countForest]
  · intro c cs ihc ihcs sep p
    simp [entriesForest, countForest, ihc, ihcs]

/-- Main preservation lemma for the assignment pass: under fsid / indexed
agreement, an index in exact correspondence with the subtree plus an
unrelated remainder, unique index keys, unique node paths, scanner ids fresh
for the remainder and colliding with subtree entries only at their own node,
and globally injective scanner ids, the per-node worker preserves all of it,
keeps names and paths intact, and adds only entries justified by a scan. -/
theorem assign_preserves (sc : Scanner) (debris sep : String)
    (hinj : ∀ q q' : String, ∀ i i' : FileInfo, sc.fopen q = some i → sc.fopen q' = some i' →
        i.fsid = i'.fsid → q = q') :
    (∀ t : LNode, ∀ p : String, ∀ idx rest : Index,
      agreeB t = true →
      idx.Perm (entriesOf sep p t ++ rest) →
      (keys idx).Nodup →
      (pathsOf sep p t).Nodup →
      (∀ q ∈ pathsOf sep p t, ∀ info : FileInfo, sc.fopen q = some info →
          info.fsid ∉ keys rest) →
      (∀ q ∈ pathsOf sep p t, ∀ info : FileInfo, sc.fopen q = some info →
          ∀ e ∈ entriesOf sep p t, e.1 = info.fsid → e.2 = q) →
      agreeB (assignNode sc debris sep p t idx).1 = true
      ∧ (assignNode sc debris sep p t idx).1.name = t.name
      ∧ pathsOf sep p (assignNode sc debris sep p t idx).1 = pathsOf sep p t
      ∧ (assignNode sc debris sep p t idx).2.Perm
          (entriesOf sep p (assignNode sc debris sep p t idx).1 ++ rest)
      ∧ (keys (assignNode sc debris sep p t idx).2).Nodup
      ∧ (∀ e ∈ entriesOf sep p (assignNode sc debris sep p t idx).1,
          e ∈ entriesOf sep p t ∨ ∃ info : FileInfo, sc.fopen e.2 = some info ∧ e.1 = info.fsid))
    ∧ (∀ cs : List LNode, ∀ p : String, ∀ entries : List String, ∀ idx rest : Index,
      agreeForest cs = true →
      idx.Perm (entriesForest sep p cs ++ rest) →
      (keys idx).Nodup →
      (pathsForest sep p cs).Nodup →
      (∀ q ∈ pathsForest sep p cs, ∀ info : FileInfo, sc.fopen q = some info →
          info.fsid ∉ keys rest) →
      (∀ q ∈ pathsForest sep p cs, ∀ info : FileInfo, sc.fopen q = some info →
          ∀ e ∈ entriesForest sep p cs, e.1 = info.fsid → e.2 = q) →
      agreeForest (assignChildren sc debris sep p entries cs idx).1 = true
      ∧ List.map LNode.name (assignChildren sc debris sep p entries cs idx).1
          = List.map LNode.name cs
      ∧ pathsForest sep p (assignChildren sc debris sep p entries cs idx).1
          = pathsForest sep p cs
      ∧ (assignChildren sc debris sep p entries cs idx).2.Perm
          (entriesForest sep p (assignChildren sc debris sep p entries cs idx).1 ++ rest)
      ∧ (keys (assignChildren sc debris sep p entries cs idx).2).Nodup
      ∧ (∀ e ∈ entriesForest sep p (assignChildren sc debris sep p entries cs idx).1,
          e ∈ entriesForest sep p cs
          ∨ ∃ info : FileInfo, sc.fopen e.2 = some info ∧ e.1 = info.fsid)) := by
  apply lnode_mutual_ind
  · -- file node
    intro n f i fp p idx rest hagree hperm hnodup hpaths h5 h7
    cases hop : sc.fopen p with
    | none =>
      rw [assignNode_file_fail sc debris sep p n f i fp idx hop]
      exact ⟨hagree, rfl, rfl, hperm, hnodup, fun e he => Or.inl he⟩
    | some info =>
      by_cases hmk : info.kind = .file ∧ info.fp = fp
      · cases f with
        | none =>
          rw [assignNode_file_match_none sc debris sep p n i fp idx info hop hmk.1 hmk.2]
          have hperm0 : idx.Perm rest := by simpa [entriesOf] using hperm
          have hfree : info.fsid ∉ keys rest :=
            h5 p (by simp [pathsOf]) info hop
          refine ⟨by simp [agreeB], by simp [LNode.name], by simp [pathsOf], ?_, ?_, ?_⟩
          · simpa [entriesOf] using hperm0.cons (info.fsid, p)
          · simp only [keys, List.map_cons, List.nodup_cons]
            refine ⟨?_, hnodup⟩
            intro hmem
            exact hfree ((hperm0.map Prod.fst).mem_iff.mp hmem)
          · intro e he
            simp [entriesOf] at he
            subst he
            exact Or.inr ⟨info, hop, rfl⟩
        | some k =>
          rw [assignNode_file_match_some sc debris sep p n k i fp idx info hop hmk.1 hmk.2]
          have hperm0 : idx.Perm ((k, p) :: rest) := by simpa [entriesOf] using hperm
          have hkeys0 : (keys idx).Perm (k :: keys rest) := by
            simpa [keys] using hperm0.map Prod.fst
          have hkrest : (k :: keys rest).Nodup := hkeys0.nodup hnodup
          have hknotin : k ∉ keys rest := (List.nodup_cons.mp hkrest).1
          have hrestnd : (keys rest).Nodup := (List.nodup_cons.mp hkrest).2
          have hrm : (removeId idx k).Perm rest := by
            have h1 : (removeId idx k).Perm (removeId ((k, p) :: rest) k) :=
              List.Perm.filter _ hperm0
            rw [removeId_cons_self, removeId_eq_self rest k hknotin] at h1
            exact h1
          have hfree : info.fsid ∉ keys rest :=
            h5 p (by simp [pathsOf]) info hop
          refine ⟨by simp [agreeB], by simp [LNode.name], by simp [pathsOf], ?_, ?_, ?_⟩
          · simpa [entriesOf] using hrm.cons (info.fsid, p)
          · simp only [keys, List.map_cons, List.nodup_cons]
            refine ⟨?_, ?_⟩
            · intro hmem
              exact hfree ((hrm.map Prod.fst).mem_iff.mp hmem)
            · exact (hrm.map Prod.fst).nodup_iff.mpr hrestnd
          · intro e he
            simp [entriesOf] at he
            subst he
            exact Or.inr ⟨info, hop, rfl⟩
      · rw [assignNode_file_mismatch sc debris sep p n f i fp idx info hop hmk]
        exact ⟨hagree, rfl, rfl, hperm, hnodup, fun e he => Or.inl he⟩
  · -- folder node
    intro n f i cs ih p idx rest hagree hperm hnodup hpaths h5 h7
    cases hop : sc.dopen p with
    | none =>
      rw [assignNode_folder_fail sc debris sep p n f i cs idx hop]
      exact ⟨hagree, rfl, rfl, hperm, hnodup, fun e he => Or.inl he⟩
    | some entries =>
      rw [assignNode_folder_scan sc debris sep p n f i cs idx entries hop]
      have hagree2 : (f.isSome == i) = true ∧ agreeForest cs = true := by
        simpa [agreeB, Bool.and_eq_true] using hagree
      have hpaths2 : p ∉ pathsForest sep p cs ∧ (pathsForest sep p cs).Nodup := by
        simpa [pathsOf, List.nodup_cons] using hpaths
      have hselfsub : ∀ e ∈ (match f with
          | some k => [(k, p)]
          | none => ([] : Index)), e ∈ entriesOf sep p (LNode.folder n f i cs) := by
        intro e he
        cases f <;> simp [entriesOf] at he ⊢
        · simp [he]
      have hperm2 : idx.Perm (entriesForest sep p cs ++ ((match f with
          | some k => [(k, p)]
          | none => ([] : Index)) ++ rest)) := by
        refine hperm.trans ?_
        have := perm_append_swap (match f with
          | some k => [(k, p)]
          | none => ([] : Index)) (entriesForest sep p cs) rest
        cases f <;> simpa [entriesOf] using this
      have h5f : ∀ q ∈ pathsForest sep p cs, ∀ info : FileInfo, sc.fopen q = some info →
          info.fsid ∉ keys ((match f with
            | some k => [(k, p)]
            | none => ([] : Index)) ++ rest) := by
        intro q hq info hqi hmem
        simp only [keys, List.map_append, List.mem_append] at hmem
        rcases hmem with hmem | hmem
        · cases f with
          | none => simp at hmem
          | some k =>
            simp at hmem
            have heq : p = q :=
              h7 q (by simp [pathsOf, hq]) info hqi (k, p) (by simp [entriesOf])
                (by simp [hmem])
            exact hpaths2.1 (by nth_rewrite 2 [heq]; exact hq)
        · exact h5 q (by simp [pathsOf, hq]) info hqi (by simpa [keys] using hmem)
      have h7f : ∀ q ∈ pathsForest sep p cs, ∀ info : FileInfo, sc.fopen q = some info →
          ∀ e ∈ entriesForest sep p cs, e.1 = info.fsid → e.2 = q := by
        intro q hq info hqi e he h1
        refine h7 q (by simp [pathsOf, hq]) info hqi e ?_ h1
        cases f <;> simp [entriesOf, he]
      obtain ⟨cAg, cNames, cPaths, cPerm, cKeys, cProv⟩ :=
        ih p entries idx ((match f with
          | some k => [(k, p)]
          | none => ([] : Index)) ++ rest) hagree2.2 hperm2 hnodup hpaths2.2 h5f h7f
      refine ⟨?_, by simp [LNode.name], ?_, ?_, cKeys, ?_⟩
      · simp [agreeB, Bool.and_eq_true, hagree2.1, cAg]
      · simp [pathsOf, cPaths]
      · refine cPerm.trans ?_
        have := perm_append_swap (entriesForest sep p
            (assignChildren sc debris sep p entries cs idx).1) (match f with
          | some k => [(k, p)]
          | none => ([] : Index)) rest
        cases f <;> simpa [entriesOf] using this
      · intro e he
        have he2 : e ∈ (match f with
            | some k => [(k, p)]
            | none => ([] : Index)) ∨
            e ∈ entriesForest sep p (assignChildren sc debris sep p entries cs idx).1 := by
          cases f <;> simpa [entriesOf] using he
        rcases he2 with he2 | he2
        · exact Or.inl (hselfsub e he2)
        · rcases cProv e he2 with h | h
          · refine Or.inl ?_
            cases f <;> simp [entriesOf, h]
          · exact Or.inr h
  · -- empty forest
    intro p entries idx rest hagree hperm hnodup hpaths h5 h7
    rw [assignChildren_nil]
    refine ⟨rfl, rfl, rfl, ?_, hnodup, ?_⟩
    · simpa [entriesForest] using hperm
    · intro e he
      simp [entriesForest] at he
  · -- forest cons
    intro c cs ihc ihcs p entries idx rest hagree hperm hnodup hpaths h5 h7
    have hagree2 : agreeB c = true ∧ agreeForest cs = true := by
      simpa [agreeForest, Bool.and_eq_true] using hagree
    have hpathsnd := hpaths
    rw [pathsForest] at hpathsnd
    have hndC : (pathsOf sep (p ++ sep ++ c.name) c).Nodup := hpathsnd.of_append_left
    have hndF : (pathsForest sep p cs).Nodup := hpathsnd.of_append_right
    have hdisj : (pathsOf sep (p ++ sep ++ c.name) c).Disjoint (pathsForest sep p cs) :=
      List.disjoint_of_nodup_append hpathsnd
    have hpermA : idx.Perm (entriesOf sep (p ++ sep ++ c.name) c
        ++ (entriesForest sep p cs ++ rest)) := by
      simpa [entriesForest, List.append_assoc] using hperm
    by_cases hg : entries.contains c.name = true
        ∧ isPathSyncable (p ++ sep ++ c.name) debris sep = true
    · rw [assignChildren_cons_pos sc debris sep p entries c cs idx hg]
      have h5c : ∀ q ∈ pathsOf sep (p ++ sep ++ c.name) c, ∀ info : FileInfo,
          sc.fopen q = some info →
          info.fsid ∉ keys (entriesForest sep p cs ++ rest) := by
        intro q hq info hqi hmem
        simp only [keys, List.map_append, List.mem_append] at hmem
        rcases hmem with hmem | hmem
        · rw [List.mem_map] at hmem
          obtain ⟨e, he, hek⟩ := hmem
          have heq : e.2 = q := by
            refine h7 q (by simp [pathsForest, hq]) info hqi e ?_ hek
            simp [entriesForest, he]
          have hin : e.2 ∈ pathsForest sep p cs := entriesOf_sub_paths.2 cs sep p e he
          rw [heq] at hin
          exact hdisj hq hin
        · exact h5 q (by simp [pathsForest, hq]) info hqi (by simpa [keys] using hmem)
      have h7c : ∀ q ∈ pathsOf sep (p ++ sep ++ c.name) c, ∀ info : FileInfo,
          sc.fopen q = some info →
          ∀ e ∈ entriesOf sep (p ++ sep ++ c.name) c, e.1 = info.fsid → e.2 = q := by
        intro q hq info hqi e he h1
        refine h7 q (by simp [pathsForest, hq]) info hqi e ?_ h1
        simp [entriesForest, he]
      obtain ⟨cAg, cName, cPaths, cPerm, cKeys, cProv⟩ :=
        ihc (p ++ sep ++ c.name) idx (entriesForest sep p cs ++ rest)
          hagree2.1 hpermA hnodup hndC h5c h7c
      have hpermB : ((assignNode sc debris sep (p ++ sep ++ c.name) c idx).2).Perm
          (entriesForest sep p cs
            ++ (entriesOf sep (p ++ sep ++ c.name)
                  (assignNode sc debris sep (p ++ sep ++ c.name) c idx).1 ++ rest)) := by
        refine cPerm.trans ?_
        exact perm_append_swap _ _ _
      have h5f : ∀ q ∈ pathsForest sep p cs, ∀ info : FileInfo, sc.fopen q = some info →
          info.fsid ∉ keys (entriesOf sep (p ++ sep ++ c.name)
            (assignNode sc debris sep (p ++ sep ++ c.name) c idx).1 ++ rest) := by
        intro q hq info hqi hmem
        simp only [keys, List.map_append, List.mem_append] at hmem
        rcases hmem with hmem | hmem
        · rw [List.mem_map] at hmem
          obtain ⟨e, he, hek⟩ := hmem
          have he2 : e.2 ∈ pathsOf sep (p ++ sep ++ c.name)
              (assignNode sc debris sep (p ++ sep ++ c.name) c idx).1 :=
            entriesOf_sub_paths.1 _ sep _ e he
          rw [cPaths] at he2
          rcases cProv e he with hold | ⟨info', hqi', hfs'⟩
          · have heq : e.2 = q := by
              refine h7 q (by simp [pathsForest, hq]) info hqi e ?_ hek
              simp [entriesForest, hold]
            rw [heq] at he2
            exact hdisj he2 hq
          · have : q = e.2 := hinj q e.2 info info' hqi hqi' (by rw [← hek, hfs'])
            rw [← this] at he2
            exact hdisj he2 hq
        · exact h5 q (by simp [pathsForest, hq]) info hqi (by simpa [keys] using hmem)
      have h7f : ∀ q ∈ pathsForest sep p cs, ∀ info : FileInfo, sc.fopen q = some info →
          ∀ e ∈ entriesForest sep p cs, e.1 = info.fsid → e.2 = q := by
        intro q hq info hqi e he h1
        refine h7 q (by simp [pathsForest, hq]) info hqi e ?_ h1
        simp [entriesForest, he]
      obtain ⟨fAg, fNames, fPaths, fPerm, fKeys, fProv⟩ :=
        ihcs p entries (assignNode sc debris sep (p ++ sep ++ c.name) c idx).2
          (entriesOf sep (p ++ sep ++ c.name)
            (assignNode sc debris sep (p ++ sep ++ c.name) c idx).1 ++ rest)
          hagree2.2 hpermB cKeys hndF h5f h7f
      refine ⟨?_, ?_, ?_, ?_, fKeys, ?_⟩
      · simp [agreeForest, Bool.and_eq_true, cAg, fAg]
      · simp [cName, fNames]
      · simp [pathsForest, cName, cPaths, fPaths]
      · refine fPerm.trans ?_
        have hswap := perm_append_swap (entriesForest sep p
            (assignChildren sc debris sep p entries cs
              (assignNode sc debris sep (p ++ sep ++ c.name) c idx).2).1)
          (entriesOf sep (p ++ sep ++ c.name)
            (assignNode sc debris sep (p ++ sep ++ c.name) c idx).1) rest
        refine hswap.trans ?_
        simp [entriesForest, cName, List.append_assoc]
      · intro e he
        rw [entriesForest] at he
        rw [cName] at he
        rcases List.mem_append.mp he with he | he
        · rcases cProv e he with hold | hnew
          · exact Or.inl (by simp [entriesForest, hold])
          · exact Or.inr hnew
        · rcases fProv e he with hold | hnew
          · exact Or.inl (by simp [entriesForest, hold])
          · exact Or.inr hnew
    · rw [assignChildren_cons_neg sc debris sep p entries c cs idx hg]
      have hpermB : idx.Perm (entriesForest sep p cs
          ++ (entriesOf sep (p ++ sep ++ c.name) c ++ rest)) :=
        hpermA.trans (perm_append_swap _ _ _)
      have h5f : ∀ q ∈ pathsForest sep p cs, ∀ info : FileInfo, sc.fopen q = some info →
          info.fsid ∉ keys (entriesOf sep (p ++ sep ++ c.name) c ++ rest) := by
        intro q hq info hqi hmem
        simp only [keys, List.map_append, List.mem_append] at hmem
        rcases hmem with hmem | hmem
        · rw [List.mem_map] at hmem
          obtain ⟨e, he, hek⟩ := hmem
          have heq : e.2 = q := by
            refine h7 q (by simp [pathsForest, hq]) info hqi e ?_ hek
            simp [entriesForest, he]
          have hin : e.2 ∈ pathsOf sep (p ++ sep ++ c.name) c :=
            entriesOf_sub_paths.1 c sep _ e he
          rw [heq] at hin
          exact hdisj hin hq
        · exact h5 q (by simp [pathsForest, hq]) info hqi (by simpa [keys] using hmem)
      have h7f : ∀ q ∈ pathsForest sep p cs, ∀ info : FileInfo, sc.fopen q = some info →
          ∀ e ∈ entriesForest sep p cs, e.1 = info.fsid → e.2 = q := by
        intro q hq info hqi e he h1
        refine h7 q (by simp [pathsForest, hq]) info hqi e ?_ h1
        simp [entriesForest, he]
      obtain ⟨fAg, fNames, fPaths, fPerm, fKeys, fProv⟩ :=
        ihcs p entries idx (entriesOf sep (p ++ sep ++ c.name) c ++ rest)
          hagree2.2 hpermB hnodup hndF h5f h7f
      refine ⟨?_, ?_, ?_, ?_, fKeys, ?_⟩
      · simp [agreeForest, Bool.and_eq_true, hagree2.1, fAg]
      · simp [fNames]
      · simp [pathsForest, fPaths]
      · refine fPerm.trans ?_
        have hswap := perm_append_swap (entriesForest sep p
            (assignChildren sc debris sep p entries cs idx).1)
          (entriesOf sep (p ++ sep ++ c.name) c) rest
        refine hswap.trans ?_
        simp [entriesForest, List.append_assoc]
      · intro e he
        rw [entriesForest] at he
        rcases List.mem_append.mp he with he | he
        · exact Or.inl (by simp [entriesForest, he])
        · rcases fProv e he with hold | hnew
          · exact Or.inl (by simp [entriesForest, hold])
          · exact Or.inr hnew

/-- A fully cleared subtree satisfies the fsid / indexed agreement. -/
theorem agree_of_cleared :
    (∀ t : LNode, allCleared t = true → agreeB t = true)
    ∧ (∀ cs : List LNode, clearedForest cs = true → agreeForest cs = true) := by
  apply lnode_mutual_ind
  · intro n f i fp h
    simp [allCleared] at h
    simp [agreeB, h.1, h.2]
  · intro n f i cs ih h
    simp [allCleared, Bool.and_eq_true] at h
    simp [agreeB, Bool.and_eq_true, h.1.1, h.1.2, ih h.2]
  · intro _
    rfl
  · intro c cs ihc ihcs h
    simp [clearedForest, Bool.and_eq_true] at h
    simp [agreeForest, Bool.and_eq_true, ihc h.1, ihcs h.2]

/-- A subtree with no valid fsid contributes no index entries. -/
theorem entriesOf_nil_of_fsidNone :
    (∀ t : LNode, allFsidNone t = true → ∀ sep p : String, entriesOf sep p t = [])
    ∧ (∀ cs : List LNode, noneForest cs = true → ∀ sep p : String,
        entriesForest sep p cs = []) := by
  apply lnode_mutual_ind
  · intro n f i fp h sep p
    cases f with
    | none => simp [entriesOf]
    | some k => simp [allFsidNone] at h
  · intro n f i cs ih h sep p
    cases f with
    | none =>
      simp [allFsidNone] at h
      simp [entriesOf, ih h]
    | some k => simp [allFsidNone] at h
  · intro _ sep p
    simp [entriesForest]
  · intro c cs ihc ihcs h sep p
    simp [noneForest, Bool.and_eq_true] at h
    simp [entriesForest, ihc h.1, ihcs h.2]

/-! Claim C8: every operation preserves the index invariants. -/

/-- C8: invalidateFilesystemIds, assignFilesystemIds and the index operations
they use preserve the index invariants of §3: fsid UNDEFINED exactly when not
indexed; each valid fsid maps to exactly one node (index keys are unique) and
a node occupies at most one entry (the index corresponds, up to permutation,
to the one-entry-per-assigned-node listing of the tree); and the index size
equals the number of nodes holding a valid fsid (the listing's length is
exactly that count).  For the assignment pass the platform id namespace is
assumed correct (§7): scanner ids are injective across paths and collide with
pre-existing entries only at their own node. -/
theorem operations_preserveInvariants :
    (∀ (sep p : String) (t : LNode) (idx : Index),
      agreeB t = true → idx.Perm (entriesOf sep p t) → (keys idx).Nodup →
      agreeB (invalidateFilesystemIds idx t).2 = true
      ∧ (invalidateFilesystemIds idx t).1.Perm
          (entriesOf sep p (invalidateFilesystemIds idx t).2)
      ∧ (keys (invalidateFilesystemIds idx t).1).Nodup)
    ∧ (∀ (policyHook : String → Bool) (sc : Scanner) (debris sep rootPath : String)
        (t : LNode) (idx : Index) (strict : Bool),
      agreeB t = true → idx.Perm (entriesOf sep rootPath t) → (keys idx).Nodup →
      (pathsOf sep rootPath t).Nodup →
      (∀ q q' : String, ∀ i i' : FileInfo, sc.fopen q = some i → sc.fopen q' = some i' →
          i.fsid = i'.fsid → q = q') →
      (∀ q ∈ pathsOf sep rootPath t, ∀ info : FileInfo, sc.fopen q = some info →
          ∀ e ∈ entriesOf sep rootPath t, e.1 = info.fsid → e.2 = q) →
      agreeB (assignFilesystemIds policyHook sc t rootPath idx debris sep strict).2.1 = true
      ∧ (assignFilesystemIds policyHook sc t rootPath idx debris sep strict).2.2.Perm
          (entriesOf sep rootPath
            (assignFilesystemIds policyHook sc t rootPath idx debris sep strict).2.1)
      ∧ (keys (assignFilesystemIds policyHook sc t rootPath idx debris sep strict).2.2).Nodup)
    ∧ (∀ (idx : Index) (k : Nat), (keys idx).Nodup → (keys (removeId idx k)).Nodup)
    ∧ (∀ (sep p : String) (t : LNode), (entriesOf sep p t).length = countAssigned t) := by
  refine ⟨?_, ?_, keys_nodup_removeId, fun sep p t => entriesOf_length.1 t sep p⟩
  · intro sep p t idx hagree hperm hnodup
    have hsnd := invalidate_snd.1 t idx
    have hnil : (invalidateFilesystemIds idx t).1 = [] := by
      rw [List.eq_nil_iff_forall_not_mem]
      intro e he
      rw [invalidate_mem_fst.1] at he
      exact he.2 (entriesOf_key_mem.1 t sep p e (hperm.mem_iff.mp he.1))
    refine ⟨?_, ?_, ?_⟩
    · rw [hsnd]
      exact agree_of_cleared.1 (invTree t) (allCleared_invTree.1 t hagree)
    · rw [hsnd, hnil, entriesOf_nil_of_fsidNone.1 (invTree t) (allFsidNone_invTree.1 t) sep p]
    · rw [hnil]
      simp [keys]
  · intro policyHook sc debris sep rootPath t idx strict hagree hperm hnodup hpaths hinj h7
    cases hh : policyHook rootPath with
    | false =>
      simp only [assignFilesystemIds, hh]
      exact ⟨hagree, by simpa using hperm, hnodup⟩
    | true =>
      cases hd : sc.dopen rootPath with
      | none =>
        simp only [assignFilesystemIds, hh, hd]
        exact ⟨hagree, by simpa using hperm, hnodup⟩
      | some entries =>
        have hmain := (assign_preserves sc debris sep hinj).1 t rootPath idx []
          hagree (by simpa using hperm) hnodup hpaths
          (by intro q hq info hqi hmem; simp [keys] at hmem) h7
        have hres : assignFilesystemIds policyHook sc t rootPath idx debris sep strict =
            (true, (assignNode sc debris sep rootPath t idx).1,
              (assignNode sc debris sep rootPath t idx).2) := by
          cases ha : assignNode sc debris sep rootPath t idx
          simp [assignFilesystemIds, hh, hd, ha]
        rw [hres]
        exact ⟨hmain.1, by simpa using hmain.2.2.2.1, hmain.2.2.2.2.1⟩

/-- Fixture for the C8 witness: a two-node subtree whose fsids are indexed. -/
def invFixTree : LNode :=
  .folder "d" (some 1) true [.file "f" (some 2) true ⟨0, 0, 0⟩]

/-- Fixture for the C8 witness: a one-file filesystem scanner. -/
def wScanner : Scanner where
  dopen p := if p = "r" then some ["f"] else none
  fopen p := if p = "r/f" then some ⟨.file, 5, ⟨1, 1, 1⟩⟩ else none

/-- Fixture for the C8 witness: the matching one-file local tree. -/
def wTree : LNode :=
  .folder "r" none false [.file "f" none false ⟨1, 1, 1⟩]

/-- Witness for C8: both passes and the index operations applied at concrete
inputs satisfying the invariants. -/
theorem operations_preserveInvariants_witness :
    (agreeB (invalidateFilesystemIds [(1, "d"), (2, "d/f")] invFixTree).2 = true
      ∧ (invalidateFilesystemIds [(1, "d"), (2, "d/f")] invFixTree).1.Perm
          (entriesOf "/" "d" (invalidateFilesystemIds [(1, "d"), (2, "d/f")] invFixTree).2)
      ∧ (keys (invalidateFilesystemIds [(1, "d"), (2, "d/f")] invFixTree).1).Nodup)
    ∧ (agreeB (assignFilesystemIds (fun _ => true) wScanner wTree "r" [] "r/.debris" "/" true).2.1
        = true
      ∧ (assignFilesystemIds (fun _ => true) wScanner wTree "r" [] "r/.debris" "/" true).2.2.Perm
          (entriesOf "/" "r"
            (assignFilesystemIds (fun _ => true) wScanner wTree "r" [] "r/.debris" "/" true).2.1)
      ∧ (keys (assignFilesystemIds (fun _ => true) wScanner wTree "r" [] "r/.debris" "/"
          true).2.2).Nodup)
    ∧ (keys (removeId [(3, "x")] 3)).Nodup
    ∧ (entriesOf "/" "d" invFixTree).length = countAssigned invFixTree :=
  ⟨operations_preserveInvariants.1 "/" "d" invFixTree [(1, "d"), (2, "d/f")]
      (by decide) (by decide) (by decide),
   operations_preserveInvariants.2.1 (fun _ => true) wScanner "r/.debris" "/" "r" wTree [] true
      (by decide) (by decide) (by decide) (by decide)
      (by
        intro q q' i i' h h' hfs
        simp only [wScanner] at h h'
        split_ifs at h h' with hq hq' <;> simp_all)
      (by
        intro q hq info hqi e he
        simp [entriesOf, wTree, entriesForest] at he),
   operations_preserveInvariants.2.2.1 [(3, "x")] 3 (by decide),
   operations_preserveInvariants.2.2.2 "/" "d" invFixTree⟩

end mega
